import Mathlib

/-!
Verification development for the K8sVersioner synchronization engine.

The Go sources are shallowly embedded: Go maps become association lists
(`List (String × _)`) with overwrite-on-insert semantics, fallible calls to
external collaborators (cluster listing, discovery, git transport,
marshalling) become explicit `Except`-valued oracle parameters, and each
loop body of the controller becomes a named Lean function returning an
outcome value so that per-stage skip behaviour is visible in the result.

Field names follow the Go sources; the Go field `Namespace` is rendered
`«namespace»` because `namespace` is a Lean keyword.
-/

set_option autoImplicit false

/-- Model of the dynamic JSON-like object trees handled as
`map[string]interface{}` by the Go code (`unstructured.Unstructured`). -/
inductive JValue where
  | null
  | bool (b : Bool)
  | num (n : Int)
  | str (s : String)
  | arr (xs : List JValue)
  | obj (fields : List (String × JValue))

/-- The `Object` field of an `unstructured.Unstructured` resource record:
a top-level Go map from string keys to arbitrary values. -/
abbrev UnstructuredObj := List (String × JValue)

/-- Go map lookup `m[k]` on an association list: first entry wins
(the list is kept duplicate-free by `insertGo`). -/
def lookupStr {α : Type} (k : String) : List (String × α) → Option α
  | [] => none
  | (k2, v) :: rest => if k = k2 then some v else lookupStr k rest

/-- Go map deletion `delete(m, k)`: drop every entry stored under `k`. -/
def deleteKey {α : Type} (k : String) : List (String × α) → List (String × α)
  | [] => []
  | (k2, v) :: rest => if k2 = k then deleteKey k rest else (k2, v) :: deleteKey k rest

/-- Go map insertion `m[k] = v` (overwrite semantics). -/
def insertGo {α : Type} (m : List (String × α)) (k : String) (v : α) : List (String × α) :=
  (k, v) :: deleteKey k m

/-- Nested string access `obj[k1][k2]` as done by the `unstructured`
accessors (`GetName`, `GetNamespace`): empty string when absent or not
of the expected shape. -/
def getStr2 (obj : UnstructuredObj) (k1 k2 : String) : String :=
  match lookupStr k1 obj with
  | some (JValue.obj m) =>
    match lookupStr k2 m with
    | some (JValue.str s) => s
    | _ => ""
  | _ => ""

/-- `item.GetName()`: reads `metadata.name`. -/
def getName (obj : UnstructuredObj) : String := getStr2 obj "metadata" "name"

/-- `item.GetNamespace()`: reads `metadata.namespace`. -/
def getNamespace (obj : UnstructuredObj) : String := getStr2 obj "metadata" "namespace"

/-- `item.GetKind()`: reads the top-level `kind` string. -/
def getKind (obj : UnstructuredObj) : String :=
  match lookupStr "kind" obj with
  | some (JValue.str s) => s
  | _ => ""

/-- The `metadata.labels` map of a record (empty when absent). -/
def getLabels (obj : UnstructuredObj) : List (String × JValue) :=
  match lookupStr "metadata" obj with
  | some (JValue.obj m) =>
    match lookupStr "labels" m with
    | some (JValue.obj l) => l
    | _ => []
  | _ => []

/-- `metadata.managedFields` of a record, `none` when absent
(or when `metadata` is not an object). -/
def getManagedFields (obj : UnstructuredObj) : Option JValue :=
  match lookupStr "metadata" obj with
  | some (JValue.obj m) => lookupStr "managedFields" m
  | _ => none

namespace config

/-- `config.MapKeySeparator`. -/
def MapKeySeparator : String := "/"

/-- `config.ResourceFilter` (new-style CRD spec field names). -/
structure ResourceFilter where
  name : String
  apiVersion : String
  withManagedFields : Bool
  withStatusField : Bool
deriving DecidableEq

/-- `config.ConfigSpec` of the CRD-based configuration
(`excludeResource` is the field consumed by the controller variant that
implements exclusion). -/
structure ConfigSpec where
  «namespace» : String
  includeResource : List ResourceFilter
  excludeResource : List ResourceFilter
  labels : List (String × String)
  outputType : String
  annotations : List (String × String)
  gitRef : String
  kubeConfig : String
  folderStructure : String
deriving DecidableEq

/-- `config.Config`: the CRD object. `name`, `«namespace»`, `labels` and
`annotations` stand for the promoted `metav1.ObjectMeta` fields that the
Go code accesses as `cfg.Name`, `cfg.Namespace`, `cfg.Labels`,
`cfg.Annotations`. -/
structure Config where
  name : String
  «namespace» : String
  labels : List (String × String)
  annotations : List (String × String)
  spec : ConfigSpec
deriving DecidableEq

/-- `config.GitConfigSpec`. -/
structure GitConfigSpec where
  protocol : String
  repositoryURL : String
  branch : String
  username : String
  password : String
  sshPrivateKeyPath : String
  repositoryPath : String
  repositoryFolder : String
  dryRun : Bool
deriving DecidableEq

/-- `config.GitConfig` with its promoted `ObjectMeta` fields. -/
structure GitConfig where
  name : String
  «namespace» : String
  spec : GitConfigSpec
deriving DecidableEq

/-- `config.ConfigStore`: one tenant configuration paired with its git
target. -/
structure ConfigStore where
  config : Config
  gitConfig : GitConfig
deriving DecidableEq

/-- Key under which `LoadGitConfigs` stores a `GitConfig`:
`gitCfg.Name + MapKeySeparator + gitCfg.Namespace`. -/
def gitKey (g : GitConfig) : String :=
  g.name ++ MapKeySeparator ++ g.«namespace»

/-- Key used to look a git target up for a tenant config:
`cfg.Spec.GitRef + MapKeySeparator + cfg.Namespace`. -/
def configRefKey (c : Config) : String :=
  c.spec.gitRef ++ MapKeySeparator ++ c.«namespace»

/-- The map built by `LoadGitConfigs` from the listed (already converted
and validated) `GitConfig` resources. -/
def loadGitConfigsMap (gitConfigs : List GitConfig) : List (String × GitConfig) :=
  gitConfigs.foldl (fun m g => insertGo m (gitKey g) g) []

/-- The association loop of `LoadConfigStore`: for each `Config`, look its
git target up by `configRefKey`; a missing reference aborts the whole
load with an error (early return in Go). -/
def joinPairs (gitMap : List (String × GitConfig)) : List Config → Except String (List ConfigStore)
  | [] => .ok []
  | c :: rest =>
    match lookupStr (configRefKey c) gitMap with
    | none =>
      .error ("GitConfig " ++ c.spec.gitRef ++ " referenced by Config " ++ c.name ++ " not found")
    | some g =>
      match joinPairs gitMap rest with
      | .error e => .error e
      | .ok ps => .ok (⟨c, g⟩ :: ps)

/-- `config.LoadConfigStore`. The listing, conversion and per-item schema
validation performed by `LoadConfigs` / `LoadGitConfigs` involve the
cluster and the validator library, so their results are passed in as
`Except` values; the join is embedded from the source. -/
def LoadConfigStore (configsResult : Except String (List Config))
    (gitConfigsResult : Except String (List GitConfig)) : Except String (List ConfigStore) :=
  match configsResult with
  | .error e => .error ("failed to load Configs: " ++ e)
  | .ok configs =>
    match gitConfigsResult with
    | .error e => .error ("failed to load GitConfigs: " ++ e)
    | .ok gitConfigs => joinPairs (loadGitConfigsMap gitConfigs) configs

/-- State of `config.ConfigManager`: the stored pair list and the two
(nilable) cached maps. -/
structure ConfigManagerState where
  cfg : List ConfigStore
  gitMapCache : Option (List (String × GitConfig))
  configMapCache : Option (List (String × Config))

/-- `config.NewConfigManager`. -/
def NewConfigManager (cfg : List ConfigStore) : ConfigManagerState :=
  { cfg := cfg, gitMapCache := none, configMapCache := none }

/-- Map built by `GetGitMap` from the stored pairs, keyed by
`pair.GitConfig.Name + MapKeySeparator + pair.GitConfig.Namespace`. -/
def buildGitMap (pairs : List ConfigStore) : List (String × GitConfig) :=
  pairs.foldl (fun m p => insertGo m (gitKey p.gitConfig) p.gitConfig) []

/-- Map built by `GetConfigMap` from the stored pairs, keyed by
`pair.Config.Name`. -/
def buildConfigMap (pairs : List ConfigStore) : List (String × Config) :=
  pairs.foldl (fun m p => insertGo m p.config.name p.config) []

/-- `ConfigManager.GetGitMap`: returns the cached map when present,
otherwise builds it from the stored pairs. -/
def GetGitMap (cm : ConfigManagerState) : List (String × GitConfig) :=
  match cm.gitMapCache with
  | some m => m
  | none => buildGitMap cm.cfg

/-- `ConfigManager.GetConfigMap`. -/
def GetConfigMap (cm : ConfigManagerState) : List (String × Config) :=
  match cm.configMapCache with
  | some m => m
  | none => buildConfigMap cm.cfg

/-- `ConfigManager.Reload`: load a fresh catalog; on error the manager
state is untouched, on success the pair list is swapped and both cached
maps reset. -/
def Reload (cm : ConfigManagerState) (configsResult : Except String (List Config))
    (gitConfigsResult : Except String (List GitConfig)) : ConfigManagerState × Option String :=
  match LoadConfigStore configsResult gitConfigsResult with
  | .error e => (cm, some e)
  | .ok cfg => ({ cfg := cfg, gitMapCache := none, configMapCache := none }, none)

end config

namespace git

/-- The authentication method selected by `NewGitClient`
(`transport.AuthMethod`, restricted to the variants the code builds). -/
inductive AuthMethod where
  | basicAuth (username password : String)
  | publicKeys (user : String)
deriving DecidableEq

/-- `git.GitClient`; the repository handle itself lives behind the
transport oracles, the remaining fields are embedded. -/
structure GitClient where
  auth : AuthMethod
  branch : String
  dir : String
  push : Bool
deriving DecidableEq

/-- Result of `repo.PushContext`: `none` models a successful push, the
error `alreadyUpToDate` models `git.NoErrAlreadyUpToDate`, and `other`
any transport or authentication error. -/
inductive PushErr where
  | alreadyUpToDate
  | other (msg : String)
deriving DecidableEq

/-- Outcomes of the worktree, staging, commit and push operations of the
go-git backend for one `CommitAndPush` invocation (`none` = success). -/
structure GitBackendEnv where
  worktreeErr : Option String
  addErr : Option String
  commitErr : Option String
  pushErr : Option PushErr

/-- Result of `CommitAndPush`, instrumented with whether the remote push
operation (`repo.PushContext`) was invoked. -/
structure CommitPushResult where
  err : Option String
  pushInvoked : Bool
deriving DecidableEq

/-- The protocol switch of `NewGitClient`: basic auth plus a scheme
prefix for http and https, public-key auth (loaded from file, which can
fail) for ssh, an error otherwise. -/
def selectAuthURL (cfg : config.GitConfigSpec) (sshKeyResult : Except String Unit) :
    Except String (AuthMethod × String) :=
  match cfg.protocol with
  | "https" => .ok (AuthMethod.basicAuth cfg.username cfg.password, "https://" ++ cfg.repositoryURL)
  | "http" => .ok (AuthMethod.basicAuth cfg.username cfg.password, "http://" ++ cfg.repositoryURL)
  | "ssh" =>
    match sshKeyResult with
    | .error e => .error e
    | .ok _ => .ok (AuthMethod.publicKeys "git", cfg.repositoryURL)
  | _ => .error "unsupported protocol"

/-- The check strings.HasSuffix(dir, "/") performed by `NewGitClient`,
stated over the character list so that it evaluates. -/
def hasSlashSuffix (s : String) : Bool := s.data.getLast? = some '/'

/-- Local working-copy directory computed by `NewGitClient` from
`RepositoryPath` and `RepositoryFolder`. -/
def repoDir (cfg : config.GitConfigSpec) : String :=
  if hasSlashSuffix cfg.repositoryPath then cfg.repositoryPath ++ cfg.repositoryFolder
  else cfg.repositoryPath ++ "/" ++ cfg.repositoryFolder

/-- `git.NewGitClient`. The ssh key load and the clone-or-open of the
local working copy touch the filesystem and network, so their outcomes
are oracle parameters; the push flag is `true` unless `DryRun` is set. -/
def NewGitClient (cfg : config.GitConfigSpec) (sshKeyResult : Except String Unit)
    (cloneOrOpenResult : Except String Unit) : Except String GitClient :=
  match selectAuthURL cfg sshKeyResult with
  | .error e => .error e
  | .ok (auth, _url) =>
    match cloneOrOpenResult with
    | .error e => .error e
    | .ok _ =>
      .ok { auth := auth, branch := cfg.branch, dir := repoDir cfg,
            push := if cfg.dryRun then false else true }

/-- `GitClient.CommitAndPush`: worktree, stage all, commit; then, only
when the push flag is set, push — treating `NoErrAlreadyUpToDate` as
success. -/
def CommitAndPush (g : GitClient) (env : GitBackendEnv) : CommitPushResult :=
  match env.worktreeErr with
  | some e => { err := some e, pushInvoked := false }
  | none =>
    match env.addErr with
    | some e => { err := some e, pushInvoked := false }
    | none =>
      match env.commitErr with
      | some e => { err := some e, pushInvoked := false }
      | none =>
        if !g.push then { err := none, pushInvoked := false }
        else
          match env.pushErr with
          | some PushErr.alreadyUpToDate => { err := none, pushInvoked := true }
          | some (PushErr.other m) => { err := some m, pushInvoked := true }
          | none => { err := none, pushInvoked := true }

end git

/-- `schema.GroupVersionKind`. -/
structure GroupVersionKind where
  group : String
  version : String
  kind : String
deriving DecidableEq

/-- `schema.GroupVersionResource`. -/
structure GroupVersionResource where
  group : String
  version : String
  resource : String
deriving DecidableEq

/-- The part of `meta.RESTMapping` the controller uses: the resolved
listable resource identity. -/
structure RESTMapping where
  resource : GroupVersionResource
deriving DecidableEq

/-- `schema.FromAPIVersionAndKind`: split `apiVersion` on the slash;
zero slashes mean an empty group, anything malformed degrades to an
empty group and version. -/
def fromAPIVersionAndKind (apiVersion kind : String) : GroupVersionKind :=
  match apiVersion.splitOn "/" with
  | [v] => { group := "", version := v, kind := kind }
  | [g, v] => { group := g, version := v, kind := kind }
  | _ => { group := "", version := "", kind := kind }

/-- The GVK a resource filter resolves to in the controller
(`schema.FromAPIVersionAndKind(resFilter.APIVersion, resFilter.Name)`). -/
def gvkOfFilter (rf : config.ResourceFilter) : GroupVersionKind :=
  fromAPIVersionAndKind rf.apiVersion rf.name

/-- Oracles for the external collaborators one sync pass talks to:
discovery (REST mapping), the dynamic list client, the namespace list
call, the marshallers, the file write and the commit-and-push of the
git client. -/
structure SyncEnv where
  restMapping : GroupVersionKind → Except String RESTMapping
  listResources : GroupVersionResource → String → Except String (List UnstructuredObj)
  listNamespaces : Except String (List UnstructuredObj)
  marshalYAML : UnstructuredObj → Except String String
  marshalJSON : UnstructuredObj → Except String String
  saveResource : String → String → Except String Unit
  commitAndPush : Except String Unit

/-- `controllers.matchFilters`: the label and annotation filter stub —
it accepts every record unconditionally. -/
def matchFilters (_item : UnstructuredObj) (_labels _annotations : List (String × String)) : Bool :=
  true

/-- `controllers.isExcluded`: the exclusion-list stub — it never
excludes a record. -/
def isExcluded (_item : UnstructuredObj) (_exclude : List config.ResourceFilter) : Bool :=
  false

/-- `RemoveNestedField(obj, "metadata", "managedFields")` as performed by
`item.SetManagedFields(nil)`: drop `managedFields` from the `metadata`
map when `metadata` is a map, leave anything else untouched. -/
def stripManagedEntry (kv : String × JValue) : String × JValue :=
  if kv.1 = "metadata" then
    match kv.2 with
    | JValue.obj m => (kv.1, JValue.obj (deleteKey "managedFields" m))
    | v => (kv.1, v)
  else kv

/-- `item.SetManagedFields(nil)`. -/
def setManagedFieldsNil (obj : UnstructuredObj) : UnstructuredObj :=
  obj.map stripManagedEntry

/-- The field-stripping stage applied to one record before
serialization: drop the managed fields unless `WithManagedFields`, then
drop the top-level `status` entry unless `WithStatusField` (identical in
every controller variant). -/
def strippedItem (rf : config.ResourceFilter) (item : UnstructuredObj) : UnstructuredObj :=
  let item1 := if !rf.withManagedFields then setManagedFieldsNil item else item
  if !rf.withStatusField then deleteKey "status" item1 else item1

/-- The top-level keys a serializer (YAML or JSON) emits for an object:
exactly the keys present in the map. -/
def topLevelKeys (obj : UnstructuredObj) : List String :=
  obj.map Prod.fst

/-- The marshal call selected by the configured output type:
`yaml.Marshal` when `OutputType == "yaml"`, else `json.MarshalIndent`. -/
def marshalOf (env : SyncEnv) (cfg : config.Config) (obj : UnstructuredObj) : Except String String :=
  if cfg.spec.outputType = "yaml" then env.marshalYAML obj else env.marshalJSON obj

/-- Per-record outcome of the fetch/transform/persist loop body. -/
inductive ItemOutcome where
  | filtered
  | excluded
  | marshalSkip (e : String)
  | saveSkip (e : String)
  | saved (path : String) (data : String)
deriving DecidableEq

namespace controllers

/-- `controllers.generateFilePath` (current variant): literal namespace,
or the placeholder `cluster` for cluster-scoped records, then kind and
name, with a fixed `.yaml` extension; the folder-structure argument is
ignored by the source. -/
def generateFilePath (_structure : String) (item : UnstructuredObj) : String :=
  let ns0 := getNamespace item
  let ns := if ns0 = "" then "cluster" else ns0
  ns ++ "/" ++ getKind item ++ "/" ++ getName item ++ ".yaml"

/-- The namespace placeholder mapping of `generateFilePath`: the literal
namespace, or `cluster` when the record is cluster-scoped. -/
def nsPlaceholder (ns : String) : String := if ns = "" then "cluster" else ns

/-- The path shape of `generateFilePath` factored over the extracted
(namespace, kind, name) triple of a record. -/
def pathTriple (ns kind name : String) : String :=
  nsPlaceholder ns ++ "/" ++ kind ++ "/" ++ name ++ ".yaml"

/-- Body of the per-record loop of `controllers.sync` (current variant):
label/annotation filter, exclusion check, field stripping, marshal,
save; each failure skips just this record. -/
def processItem (env : SyncEnv) (cfg : config.Config) (rf : config.ResourceFilter)
    (item : UnstructuredObj) : ItemOutcome :=
  if !matchFilters item cfg.labels cfg.annotations then .filtered
  else if isExcluded item cfg.spec.excludeResource then .excluded
  else
    let item2 := strippedItem rf item
    match marshalOf env cfg item2 with
    | .error e => .marshalSkip e
    | .ok data =>
      let path := generateFilePath cfg.spec.folderStructure item2
      match env.saveResource path data with
      | .error e => .saveSkip e
      | .ok _ => .saved path data

/-- Per-filter outcome of `controllers.sync` (current variant). The
first two constructors are the configuration errors of the wildcard and
empty-name checks; `discoverySkip` is a REST-mapping failure. -/
inductive FilterOutcome where
  | configSkipName
  | configSkipAPIVersion
  | discoverySkip (e : String)
  | listSkip (e : String)
  | listed (items : List ItemOutcome)
deriving DecidableEq

/-- Body of the per-filter loop of `controllers.sync` (current variant),
instrumented with the list of GVKs for which discovery was consulted:
the wildcard/empty checks run before `mapper.RESTMapping` and skip the
filter without any discovery call. -/
def processFilter (env : SyncEnv) (cfg : config.Config) (rf : config.ResourceFilter) :
    FilterOutcome × List GroupVersionKind :=
  if rf.name = "*" ∨ rf.name = "" then (.configSkipName, [])
  else if rf.apiVersion = "*" then (.configSkipAPIVersion, [])
  else
    let gvk := gvkOfFilter rf
    match env.restMapping gvk with
    | .error e => (.discoverySkip e, [gvk])
    | .ok mapping =>
      let ns := if cfg.«namespace» ≠ "" ∧ cfg.«namespace» ≠ "all" then cfg.«namespace» else ""
      match env.listResources mapping.resource ns with
      | .error e => (.listSkip e, [gvk])
      | .ok items => (.listed (items.map (processItem env cfg rf)), [gvk])

/-- `controllers.sync` (current variant): process every include filter
(each filter failure only skips that filter), then commit and push. -/
def sync (env : SyncEnv) (cfg : config.Config) :
    Except String (List (FilterOutcome × List GroupVersionKind)) :=
  let outcomes := cfg.spec.includeResource.map (processFilter env cfg)
  match env.commitAndPush with
  | .error e => .error e
  | .ok _ => .ok outcomes

/-- Per-target outcome of `controllers.syncResources`. -/
inductive TargetOutcome where
  | gitConfigMissing
  | gitClientError (e : String)
  | syncError (e : String)
  | synced
deriving DecidableEq

/-- Oracles for the per-target work of `syncResources`: creating the git
client (clone or open) and running the whole `sync` for the tenant. -/
structure TargetEnv where
  newGitClient : config.GitConfig → Except String Unit
  syncConfig : config.Config → Except String Unit

/-- Body of the per-target loop of `controllers.syncResources`: look the
git target up under `GitRef + MapKeySeparator + Namespace`; a missing
entry, a git-client failure or a sync failure each skip only this
target. -/
def targetOutcome (env : TargetEnv) (gitMap : List (String × config.GitConfig))
    (c : config.Config) : TargetOutcome :=
  match lookupStr (config.configRefKey c) gitMap with
  | none => .gitConfigMissing
  | some g =>
    match env.newGitClient g with
    | .error e => .gitClientError e
    | .ok _ =>
      match env.syncConfig c with
      | .error e => .syncError e
      | .ok _ => .synced

/-- `controllers.syncResources` (current variant): iterate the config
map values, processing each target independently; the function itself
always returns nil (second component `none`). -/
def syncResources (env : TargetEnv) (cm : config.ConfigManagerState) :
    List TargetOutcome × Option String :=
  let cfgMap := config.GetConfigMap cm
  let gitMap := config.GetGitMap cm
  (cfgMap.map (fun kv => targetOutcome env gitMap kv.2), none)

end controllers

namespace controllers0

/-- `controllers.generateFilePath` (per-namespace variant): same shape
as the current variant but with the cluster-scoped placeholder `all`. -/
def generateFilePath (_structure : String) (item : UnstructuredObj) : String :=
  let ns0 := getNamespace item
  let ns := if ns0 = "" then "all" else ns0
  ns ++ "/" ++ getKind item ++ "/" ++ getName item ++ ".yaml"

/-- `controllers.determineNamespaces`: `*` or `all` issue one live
namespace-list call and return every namespace name; any other
non-empty literal is returned as a singleton; the empty selector means
cluster-scoped and yields the single empty-string sentinel. -/
def determineNamespaces («namespace» : String)
    (nsListResult : Except String (List UnstructuredObj)) : Except String (List String) :=
  if «namespace» = "*" ∨ «namespace» = "all" then
    match nsListResult with
    | .error e => .error ("failed to list namespaces: " ++ e)
    | .ok items => .ok (items.map getName)
  else if «namespace» ≠ "" then .ok [«namespace»]
  else .ok [""]

/-- Body of the per-record loop of the per-namespace `sync` variant
(no exclusion check in this variant). -/
def processItem (env : SyncEnv) (cfg : config.Config) (rf : config.ResourceFilter)
    (item : UnstructuredObj) : ItemOutcome :=
  if !matchFilters item cfg.labels cfg.annotations then .filtered
  else
    let item2 := strippedItem rf item
    match marshalOf env cfg item2 with
    | .error e => .marshalSkip e
    | .ok data =>
      let path := generateFilePath cfg.spec.folderStructure item2
      match env.saveResource path data with
      | .error e => .saveSkip e
      | .ok _ => .saved path data

/-- Outcome of one namespace of the per-filter loop; each constructor
corresponds to exactly one `List` call issued for that namespace. -/
inductive NsOutcome where
  | listSkip (e : String)
  | listed (items : List ItemOutcome)
deriving DecidableEq

/-- Body of the per-namespace loop: one unpaginated list call; a list
failure skips just this (mapping, namespace) combination. -/
def processNamespace (env : SyncEnv) (cfg : config.Config) (rf : config.ResourceFilter)
    (mapping : RESTMapping) (ns : String) : NsOutcome :=
  match env.listResources mapping.resource ns with
  | .error e => .listSkip e
  | .ok items => .listed (items.map (processItem env cfg rf))

/-- Per-filter outcome of the per-namespace `sync` variant. -/
inductive FilterOutcome where
  | mappingSkip (e : String)
  | mapped (nss : List NsOutcome)
deriving DecidableEq

/-- Body of the per-GVK loop: resolve the REST mapping (a failure skips
this filter only), then iterate every resolved namespace. -/
def processFilter (env : SyncEnv) (cfg : config.Config) (namespaces : List String)
    (rf : config.ResourceFilter) : FilterOutcome :=
  let gvk := gvkOfFilter rf
  match env.restMapping gvk with
  | .error e => .mappingSkip e
  | .ok mapping => .mapped (namespaces.map (processNamespace env cfg rf mapping))

/-- Number of namespace-scoped `List` calls issued while processing one
filter: one per resolved namespace, none when discovery failed. -/
def nsListCalls : FilterOutcome → Nat
  | .mappingSkip _ => 0
  | .mapped nss => nss.length

/-- The per-namespace `controllers.sync` variant for one resource
filter: resolve the namespaces (a failure here is returned), process
the filter across them, then commit and push. -/
def sync (env : SyncEnv) (cfg : config.Config) (rf : config.ResourceFilter) :
    Except String FilterOutcome :=
  match determineNamespaces cfg.«namespace» env.listNamespaces with
  | .error e => .error e
  | .ok namespaces =>
    let outcome := processFilter env cfg namespaces rf
    match env.commitAndPush with
    | .error e => .error e
    | .ok _ => .ok outcome

/-- The per-filter loop of the matching `syncResources`: every include
filter is processed by its own `sync` call, continuing past failures. -/
def syncFilters (env : SyncEnv) (cfg : config.Config) : List (Except String FilterOutcome) :=
  cfg.spec.includeResource.map (sync env cfg)

end controllers0

/-- Absence of the path separator in a path component string. -/
def noSlash (s : String) : Prop := '/' ∉ s.data

instance (s : String) : Decidable (noSlash s) := by
  unfold noSlash
  infer_instance

section MapLemmas

variable {α β : Type}

theorem lookupStr_mem {k : String} {v : α} :
    ∀ {m : List (String × α)}, lookupStr k m = some v → (k, v) ∈ m := by
  intro m
  induction m with
  | nil => intro h; simp [lookupStr] at h
  | cons kv rest ih =>
    intro h
    by_cases hk : k = kv.1
    · simp [lookupStr, hk] at h
      subst hk
      simp [← h]
    · rw [show kv = (kv.1, kv.2) from rfl] at h
      simp [lookupStr, hk] at h
      exact List.mem_cons_of_mem _ (ih h)

theorem lookupStr_deleteKey_self {k : String} :
    ∀ (m : List (String × α)), lookupStr k (deleteKey k m) = none := by
  intro m
  induction m with
  | nil => rfl
  | cons kv rest ih =>
    obtain ⟨k2, v⟩ := kv
    by_cases hk : k2 = k
    · simpa [deleteKey, hk] using ih
    · simpa [deleteKey, hk, lookupStr, Ne.symm hk] using ih

theorem lookupStr_deleteKey_ne {k k2 : String} (hne : k ≠ k2) :
    ∀ (m : List (String × α)), lookupStr k (deleteKey k2 m) = lookupStr k m := by
  intro m
  induction m with
  | nil => rfl
  | cons kv rest ih =>
    obtain ⟨ka, v⟩ := kv
    by_cases hk : ka = k2
    · simpa [deleteKey, hk, lookupStr, hne] using ih
    · by_cases hkk : k = ka
      · simp [deleteKey, hk, lookupStr, hkk]
      · simpa [deleteKey, hk, lookupStr, hkk] using ih

theorem not_mem_keys_deleteKey {k : String} :
    ∀ (m : List (String × α)), k ∉ (deleteKey k m).map Prod.fst := by
  intro m
  induction m with
  | nil => simp [deleteKey]
  | cons kv rest ih =>
    obtain ⟨k2, v⟩ := kv
    by_cases hk : k2 = k
    · simpa [deleteKey, hk] using ih
    · rw [deleteKey, if_neg hk]
      intro h
      rcases List.mem_cons.mp h with h1 | h2
      · exact hk h1.symm
      · exact ih h2

theorem mem_deleteKey {k : String} {e : String × α} :
    ∀ {m : List (String × α)}, e ∈ deleteKey k m → e ∈ m := by
  intro m
  induction m with
  | nil => intro h; simp [deleteKey] at h
  | cons kv rest ih =>
    obtain ⟨k2, v⟩ := kv
    by_cases hk : k2 = k
    · intro h
      rw [deleteKey, if_pos hk] at h
      exact List.mem_cons_of_mem _ (ih h)
    · intro h
      rw [deleteKey, if_neg hk] at h
      rcases List.mem_cons.mp h with h1 | h2
      · exact h1 ▸ List.mem_cons_self _ _
      · exact List.mem_cons_of_mem _ (ih h2)

theorem lookupStr_insertGo_self (m : List (String × α)) (k : String) (v : α) :
    lookupStr k (insertGo m k v) = some v := by
  simp [insertGo, lookupStr]

theorem lookupStr_insertGo_ne {k k2 : String} (hne : k ≠ k2) (m : List (String × α)) (v : α) :
    lookupStr k (insertGo m k2 v) = lookupStr k m := by
  simp [insertGo, lookupStr, hne]
  exact lookupStr_deleteKey_ne hne m

theorem lookupStr_insertGo_isSome {k : String} (m : List (String × α)) (k2 : String) (v : α)
    (h : (lookupStr k m).isSome) : (lookupStr k (insertGo m k2 v)).isSome := by
  by_cases hk : k = k2
  · subst hk; simp [lookupStr_insertGo_self]
  · rwa [lookupStr_insertGo_ne hk]

theorem mem_insertGo {m : List (String × α)} {k : String} {v : α} {e : String × α}
    (h : e ∈ insertGo m k v) : e = (k, v) ∨ e ∈ m := by
  rcases List.mem_cons.mp h with h1 | h2
  · exact Or.inl h1
  · exact Or.inr (mem_deleteKey h2)

theorem mem_foldl_insertGo (kf : α → String) (vf : α → β) :
    ∀ (xs : List α) (m : List (String × β)) (e : String × β),
      e ∈ xs.foldl (fun acc x => insertGo acc (kf x) (vf x)) m →
      (∃ x ∈ xs, e = (kf x, vf x)) ∨ e ∈ m := by
  intro xs
  induction xs with
  | nil => intro m e h; exact Or.inr h
  | cons x rest ih =>
    intro m e h
    rcases ih (insertGo m (kf x) (vf x)) e h with h1 | h2
    · rcases h1 with ⟨y, hy, he⟩
      exact Or.inl ⟨y, List.mem_cons_of_mem _ hy, he⟩
    · rcases mem_insertGo h2 with h3 | h4
      · exact Or.inl ⟨x, List.mem_cons_self x rest, h3⟩
      · exact Or.inr h4

theorem lookupStr_foldl_insertGo_isSome (kf : α → String) (vf : α → β) :
    ∀ (xs : List α) (m : List (String × β)) (k : String),
      ((lookupStr k m).isSome ∨ ∃ x ∈ xs, kf x = k) →
      (lookupStr k (xs.foldl (fun acc x => insertGo acc (kf x) (vf x)) m)).isSome := by
  intro xs
  induction xs with
  | nil =>
    intro m k h
    rcases h with h | ⟨x, hx, _⟩
    · exact h
    · simp at hx
  | cons x rest ih =>
    intro m k h
    apply ih (insertGo m (kf x) (vf x)) k
    rcases h with h | ⟨y, hy, hk⟩
    · exact Or.inl (lookupStr_insertGo_isSome m (kf x) (vf x) h)
    · rcases List.mem_cons.mp hy with h1 | h2
      · subst h1
        refine Or.inl ?_
        subst hk
        simp [lookupStr_insertGo_self]
      · exact Or.inr ⟨y, h2, hk⟩

end MapLemmas

section StripLemmas

theorem lookupStr_cons {α : Type} (k k2 : String) (v : α) (rest : List (String × α)) :
    lookupStr k ((k2, v) :: rest) = if k = k2 then some v else lookupStr k rest := rfl

theorem getManagedFields_setManagedFieldsNil :
    ∀ (obj : UnstructuredObj), getManagedFields (setManagedFieldsNil obj) = none := by
  intro obj
  induction obj with
  | nil => rfl
  | cons kv rest ih =>
    obtain ⟨k, v⟩ := kv
    by_cases hk : k = "metadata"
    · subst hk
      cases v <;>
        simp [setManagedFieldsNil, stripManagedEntry, getManagedFields, lookupStr_cons,
          lookupStr_deleteKey_self]
    · have hs : setManagedFieldsNil ((k, v) :: rest) = (k, v) :: setManagedFieldsNil rest := by
        simp [setManagedFieldsNil, stripManagedEntry, hk]
      rw [hs]
      unfold getManagedFields
      rw [lookupStr_cons, if_neg (Ne.symm hk)]
      exact ih

theorem getManagedFields_deleteKey_status (obj : UnstructuredObj) :
    getManagedFields (deleteKey "status" obj) = getManagedFields obj := by
  unfold getManagedFields
  rw [lookupStr_deleteKey_ne (by decide) obj]

end StripLemmas

section PathLemmas

theorem append_slash_inj :
    ∀ (a : List Char) (c : List Char) (b d : List Char), '/' ∉ a → '/' ∉ c →
      a ++ '/' :: b = c ++ '/' :: d → a = c ∧ b = d := by
  intro a
  induction a with
  | nil =>
    intro c b d _ hc h
    cases c with
    | nil => simpa using h
    | cons ch ct =>
      simp at h
      exact absurd (h.1 ▸ List.mem_cons_self ch ct) hc
  | cons ha ta ih =>
    intro c b d hha hc h
    cases c with
    | nil =>
      simp at h
      exact absurd (h.1 ▸ List.mem_cons_self ha ta) hha
    | cons hc2 tc =>
      simp at h
      obtain ⟨hhead, htail⟩ := h
      have hta : '/' ∉ ta := fun hm => hha (List.mem_cons_of_mem _ hm)
      have htc : '/' ∉ tc := fun hm => hc (List.mem_cons_of_mem _ hm)
      obtain ⟨h1, h2⟩ := ih tc b d hta htc htail
      exact ⟨by rw [hhead, h1], h2⟩

theorem string_concat_slash_inj {a c b d : String} (ha : noSlash a) (hc : noSlash c)
    (h : a ++ "/" ++ b = c ++ "/" ++ d) : a = c ∧ b = d := by
  have hd : a.data ++ '/' :: b.data = c.data ++ '/' :: d.data := by
    have := congrArg String.data h
    simpa [String.data_append] using this
  obtain ⟨h1, h2⟩ := append_slash_inj a.data c.data b.data d.data ha hc hd
  exact ⟨String.ext h1, String.ext h2⟩

theorem string_append_cancel_right {a b c : String} (h : a ++ c = b ++ c) : a = b := by
  have hd : a.data ++ c.data = b.data ++ c.data := by
    have := congrArg String.data h
    simpa [String.data_append] using this
  exact String.ext (List.append_cancel_right hd)

theorem noSlash_nsPlaceholder {a : String} (ha : noSlash a) :
    noSlash (controllers.nsPlaceholder a) := by
  unfold controllers.nsPlaceholder
  by_cases h : a = ""
  · rw [if_pos h]; decide
  · rwa [if_neg h]

theorem nsPlaceholder_inj {a b : String} (ha : a ≠ "cluster") (hb : b ≠ "cluster")
    (h : controllers.nsPlaceholder a = controllers.nsPlaceholder b) : a = b := by
  unfold controllers.nsPlaceholder at h
  by_cases h1 : a = ""
  · by_cases h2 : b = ""
    · rw [h1, h2]
    · rw [if_pos h1, if_neg h2] at h
      exact absurd h.symm hb
  · by_cases h2 : b = ""
    · rw [if_neg h1, if_pos h2] at h
      exact absurd h ha
    · rwa [if_neg h1, if_neg h2] at h

end PathLemmas

section CatalogLemmas

theorem joinPairs_error_of_missing {gm : List (String × config.GitConfig)} :
    ∀ {configs : List config.Config} {c : config.Config}, c ∈ configs →
      lookupStr (config.configRefKey c) gm = none →
      ∃ e, config.joinPairs gm configs = .error e := by
  intro configs
  induction configs with
  | nil => intro c h; simp at h
  | cons c0 rest ih =>
    intro c hmem hnone
    rcases List.mem_cons.mp hmem with h1 | h2
    · subst h1
      exact ⟨_, by rw [config.joinPairs, hnone]⟩
    · cases h0 : lookupStr (config.configRefKey c0) gm with
      | none => exact ⟨_, by rw [config.joinPairs, h0]⟩
      | some g =>
        obtain ⟨e, he⟩ := ih h2 hnone
        exact ⟨e, by rw [config.joinPairs, h0, he]⟩

theorem joinPairs_ok_key {gm : List (String × config.GitConfig)} :
    ∀ {configs : List config.Config} {pairs : List config.ConfigStore},
      config.joinPairs gm configs = .ok pairs →
      ∀ p ∈ pairs, lookupStr (config.configRefKey p.config) gm = some p.gitConfig := by
  intro configs
  induction configs with
  | nil =>
    intro pairs h p hp
    rw [config.joinPairs] at h
    cases h
    simp at hp
  | cons c0 rest ih =>
    intro pairs h p hp
    rw [config.joinPairs] at h
    cases h0 : lookupStr (config.configRefKey c0) gm with
    | none => rw [h0] at h; cases h
    | some g =>
      rw [h0] at h
      cases hrest : config.joinPairs gm rest with
      | error e => rw [hrest] at h; cases h
      | ok ps =>
        rw [hrest] at h
        cases h
        rcases List.mem_cons.mp hp with h1 | h2
        · subst h1; exact h0
        · exact ih hrest p h2

theorem lookup_loadGitConfigsMap_key {gitConfigs : List config.GitConfig} {k : String}
    {g : config.GitConfig} (h : lookupStr k (config.loadGitConfigsMap gitConfigs) = some g) :
    config.gitKey g = k := by
  have hmem := lookupStr_mem h
  rcases mem_foldl_insertGo config.gitKey (fun x => x) gitConfigs [] (k, g) hmem with
    ⟨x, _, he⟩ | h2
  · obtain ⟨h1, h2⟩ := Prod.mk.injEq .. ▸ he
    rw [h2, h1]
  · simp at h2

theorem lookup_buildGitMap_isSome {pairs : List config.ConfigStore} {p : config.ConfigStore}
    (hp : p ∈ pairs) :
    (lookupStr (config.gitKey p.gitConfig) (config.buildGitMap pairs)).isSome :=
  lookupStr_foldl_insertGo_isSome (fun q => config.gitKey q.gitConfig) (fun q => q.gitConfig)
    pairs [] _ (Or.inr ⟨p, hp, rfl⟩)

theorem lookup_buildConfigMap_mem {pairs : List config.ConfigStore} {name : String}
    {c : config.Config} (h : lookupStr name (config.buildConfigMap pairs) = some c) :
    ∃ p ∈ pairs, p.config = c := by
  have hmem := lookupStr_mem h
  rcases mem_foldl_insertGo (fun q : config.ConfigStore => q.config.name) (fun q => q.config)
    pairs [] (name, c) hmem with ⟨x, hx, he⟩ | h2
  · obtain ⟨_, h2⟩ := Prod.mk.injEq .. ▸ he
    exact ⟨x, hx, h2.symm⟩
  · simp at h2

end CatalogLemmas

/-- Claim C1: at load time a tenant config whose referenced git target
(gitRef plus namespace key) is absent makes `LoadConfigStore` fail and
no catalog is produced, while during a sync pass a failed git-target
lookup only skips that one target: `syncResources` still yields one
outcome per config-map entry, returns nil, and the missing-reference
entry gets the skip outcome. -/
theorem c1_load_rejects_sync_skips :
    (∀ (configs : List config.Config) (gitConfigs : List config.GitConfig)
        (c : config.Config), c ∈ configs →
      lookupStr (config.configRefKey c) (config.loadGitConfigsMap gitConfigs) = none →
      ∃ e, config.LoadConfigStore (.ok configs) (.ok gitConfigs) = .error e)
    ∧ (∀ (env : controllers.TargetEnv) (cm : config.ConfigManagerState),
        (controllers.syncResources env cm).2 = none
        ∧ (controllers.syncResources env cm).1 =
            (config.GetConfigMap cm).map
              (fun kv => controllers.targetOutcome env (config.GetGitMap cm) kv.2))
    ∧ (∀ (env : controllers.TargetEnv) (gitMap : List (String × config.GitConfig))
        (c : config.Config), lookupStr (config.configRefKey c) gitMap = none →
        controllers.targetOutcome env gitMap c = .gitConfigMissing) := by
  refine ⟨?_, ?_, ?_⟩
  · intro configs gitConfigs c hmem hnone
    obtain ⟨e, he⟩ := joinPairs_error_of_missing hmem hnone
    exact ⟨e, by simp only [config.LoadConfigStore]; exact he⟩
  · intro env cm
    exact ⟨rfl, rfl⟩
  · intro env gitMap c hnone
    unfold controllers.targetOutcome
    rw [hnone]

/-- Witness for C1 at a concrete catalog: one config whose gitRef has no
matching git target makes the load fail. -/
theorem c1_load_rejects_sync_skips_witness :
    (∃ e, config.LoadConfigStore
        (.ok [⟨"c", "ns", [], [], ⟨"all", [], [], [], "yaml", [], "g", "", "f"⟩⟩])
        (.ok []) = .error e)
    ∧ controllers.targetOutcome ⟨fun _ => .ok (), fun _ => .ok ()⟩ []
        ⟨"c", "ns", [], [], ⟨"all", [], [], [], "yaml", [], "g", "", "f"⟩⟩ =
        .gitConfigMissing := by
  constructor
  · exact c1_load_rejects_sync_skips.1 _ []
      ⟨"c", "ns", [], [], ⟨"all", [], [], [], "yaml", [], "g", "", "f"⟩⟩
      (List.mem_singleton.mpr rfl) rfl
  · exact c1_load_rejects_sync_skips.2.2 ⟨fun _ => .ok (), fun _ => .ok ()⟩ []
      ⟨"c", "ns", [], [], ⟨"all", [], [], [], "yaml", [], "g", "", "f"⟩⟩ rfl

/-- Claim C8: `Reload` is an atomic swap-on-success — when the load
fails the manager state is returned unchanged together with the error,
and only a fully successful load replaces the stored catalog (resetting
both cached maps). -/
theorem c8_reload_atomic_swap :
    ∀ (cm : config.ConfigManagerState) (configsResult : Except String (List config.Config))
      (gitConfigsResult : Except String (List config.GitConfig)),
      (∀ e, config.LoadConfigStore configsResult gitConfigsResult = .error e →
        config.Reload cm configsResult gitConfigsResult = (cm, some e))
      ∧ (∀ pairs, config.LoadConfigStore configsResult gitConfigsResult = .ok pairs →
          config.Reload cm configsResult gitConfigsResult =
            ({ cfg := pairs, gitMapCache := none, configMapCache := none }, none)) := by
  intro cm configsResult gitConfigsResult
  constructor
  · intro e he
    simp only [config.Reload, he]
  · intro pairs hp
    simp only [config.Reload, hp]

/-- Witness for C8: a failing load keeps the previous manager state. -/
theorem c8_reload_atomic_swap_witness :
    config.Reload (config.NewConfigManager []) (.error "boom") (.ok []) =
      (config.NewConfigManager [], some "failed to load Configs: boom") :=
  (c8_reload_atomic_swap (config.NewConfigManager []) (.error "boom") (.ok [])).1
    "failed to load Configs: boom" rfl

/-- Claim C10 (implicit): any catalog produced by a successful
`LoadConfigStore` makes the git-target lookup of `syncResources` total —
every value of the config map finds its git target in the git map, so
the missing-git-config skip branch is unreachable for such catalogs. -/
theorem c10_catalog_lookup_total :
    ∀ (configs : List config.Config) (gitConfigs : List config.GitConfig)
      (pairs : List config.ConfigStore) (env : controllers.TargetEnv)
      (name : String) (c : config.Config),
      config.LoadConfigStore (.ok configs) (.ok gitConfigs) = .ok pairs →
      lookupStr name (config.GetConfigMap (config.NewConfigManager pairs)) = some c →
      (lookupStr (config.configRefKey c)
          (config.GetGitMap (config.NewConfigManager pairs))).isSome
      ∧ controllers.targetOutcome env (config.GetGitMap (config.NewConfigManager pairs)) c ≠
          .gitConfigMissing := by
  intro configs gitConfigs pairs env name c hload hlookup
  have hjoin : config.joinPairs (config.loadGitConfigsMap gitConfigs) configs = .ok pairs := by
    simpa only [config.LoadConfigStore] using hload
  have hmaps : config.GetConfigMap (config.NewConfigManager pairs) =
      config.buildConfigMap pairs := rfl
  have hgit : config.GetGitMap (config.NewConfigManager pairs) =
      config.buildGitMap pairs := rfl
  rw [hmaps] at hlookup
  obtain ⟨p, hp, hpc⟩ := lookup_buildConfigMap_mem hlookup
  have hkey := joinPairs_ok_key hjoin p hp
  have hgk : config.gitKey p.gitConfig = config.configRefKey p.config :=
    lookup_loadGitConfigsMap_key hkey
  have hsome : (lookupStr (config.configRefKey c) (config.buildGitMap pairs)).isSome := by
    have := lookup_buildGitMap_isSome hp
    rwa [hgk, hpc] at this
  refine ⟨by rwa [hgit], ?_⟩
  rw [hgit]
  obtain ⟨g, hg⟩ := Option.isSome_iff_exists.mp hsome
  unfold controllers.targetOutcome
  rw [hg]
  cases henv : env.newGitClient g with
  | error e => simp [henv]
  | ok u =>
    cases hs : env.syncConfig c with
    | error e => simp [henv, hs]
    | ok u2 => simp [henv, hs]

/-- Witness for C10 at a concrete one-entry catalog. -/
theorem c10_catalog_lookup_total_witness :
    (lookupStr
        (config.configRefKey ⟨"c", "ns", [], [], ⟨"all", [], [], [], "yaml", [], "g", "", "f"⟩⟩)
        (config.GetGitMap (config.NewConfigManager
          [⟨⟨"c", "ns", [], [], ⟨"all", [], [], [], "yaml", [], "g", "", "f"⟩⟩,
            ⟨"g", "ns", ⟨"https", "example.com/r.git", "main", "u", "p", "", "/tmp", "repo",
              false⟩⟩⟩]))).isSome
    ∧ controllers.targetOutcome ⟨fun _ => .ok (), fun _ => .ok ()⟩
        (config.GetGitMap (config.NewConfigManager
          [⟨⟨"c", "ns", [], [], ⟨"all", [], [], [], "yaml", [], "g", "", "f"⟩⟩,
            ⟨"g", "ns", ⟨"https", "example.com/r.git", "main", "u", "p", "", "/tmp", "repo",
              false⟩⟩⟩]))
        ⟨"c", "ns", [], [], ⟨"all", [], [], [], "yaml", [], "g", "", "f"⟩⟩ ≠
        .gitConfigMissing :=
  c10_catalog_lookup_total
    [⟨"c", "ns", [], [], ⟨"all", [], [], [], "yaml", [], "g", "", "f"⟩⟩]
    [⟨"g", "ns", ⟨"https", "example.com/r.git", "main", "u", "p", "", "/tmp", "repo", false⟩⟩]
    [⟨⟨"c", "ns", [], [], ⟨"all", [], [], [], "yaml", [], "g", "", "f"⟩⟩,
      ⟨"g", "ns", ⟨"https", "example.com/r.git", "main", "u", "p", "", "/tmp", "repo",
        false⟩⟩⟩]
    ⟨fun _ => .ok (), fun _ => .ok ()⟩ "c"
    ⟨"c", "ns", [], [], ⟨"all", [], [], [], "yaml", [], "g", "", "f"⟩⟩ rfl rfl

/-- Claim C2: a git client built for a dry-run target never invokes the
remote push, whatever the backend does; for a non-dry-run target, once
worktree, staging and commit succeed the push is invoked and a
remote-already-up-to-date push outcome yields no error. -/
theorem c2_dry_run_push_gate :
    ∀ (cfg : config.GitConfigSpec) (sshKeyResult cloneOrOpenResult : Except String Unit)
      (g : git.GitClient) (env : git.GitBackendEnv),
      git.NewGitClient cfg sshKeyResult cloneOrOpenResult = .ok g →
      (cfg.dryRun = true → (git.CommitAndPush g env).pushInvoked = false)
      ∧ (cfg.dryRun = false → env.worktreeErr = none → env.addErr = none →
          env.commitErr = none →
          (git.CommitAndPush g env).pushInvoked = true
          ∧ (env.pushErr = some git.PushErr.alreadyUpToDate →
              (git.CommitAndPush g env).err = none)) := by
  intro cfg sshR cloneR g env hnew
  have hpush : g.push = if cfg.dryRun then false else true := by
    unfold git.NewGitClient at hnew
    cases hsel : git.selectAuthURL cfg sshR with
    | error e => rw [hsel] at hnew; cases hnew
    | ok au =>
      obtain ⟨auth, url⟩ := au
      rw [hsel] at hnew
      cases cloneR with
      | error e => cases hnew
      | ok u =>
        cases hnew
        rfl
  constructor
  · intro hdry
    rw [hdry] at hpush
    simp at hpush
    unfold git.CommitAndPush
    cases env.worktreeErr with
    | some e => rfl
    | none =>
      cases env.addErr with
      | some e => rfl
      | none =>
        cases env.commitErr with
        | some e => rfl
        | none => simp [hpush]
  · intro hdry h1 h2 h3
    rw [hdry] at hpush
    simp at hpush
    unfold git.CommitAndPush
    rw [h1, h2, h3]
    simp only [hpush, Bool.not_true, Bool.false_eq_true, if_false]
    cases hp : env.pushErr with
    | none => exact ⟨rfl, fun _ => rfl⟩
    | some pe =>
      cases pe with
      | alreadyUpToDate => exact ⟨rfl, fun _ => rfl⟩
      | other m =>
        refine ⟨rfl, fun hc => ?_⟩
        simp at hc

/-- Witness for C2: a dry-run https target whose client build succeeds
never pushes; the same target without dry-run treats an up-to-date
remote as success. -/
theorem c2_dry_run_push_gate_witness :
    (git.CommitAndPush
        ⟨git.AuthMethod.basicAuth "u" "p", "main", "/tmp/repo", false⟩
        ⟨none, none, none, none⟩).pushInvoked = false
    ∧ (git.CommitAndPush
        ⟨git.AuthMethod.basicAuth "u" "p", "main", "/tmp/repo", true⟩
        ⟨none, none, none, some git.PushErr.alreadyUpToDate⟩).err = none := by
  constructor
  · exact (c2_dry_run_push_gate
      ⟨"https", "example.com/r.git", "main", "u", "p", "", "/tmp", "repo", true⟩
      (.ok ()) (.ok ())
      ⟨git.AuthMethod.basicAuth "u" "p", "main", "/tmp/repo", false⟩
      ⟨none, none, none, none⟩ rfl).1 rfl
  · exact ((c2_dry_run_push_gate
      ⟨"https", "example.com/r.git", "main", "u", "p", "", "/tmp", "repo", false⟩
      (.ok ()) (.ok ())
      ⟨git.AuthMethod.basicAuth "u" "p", "main", "/tmp/repo", true⟩
      ⟨none, none, none, some git.PushErr.alreadyUpToDate⟩ rfl).2 rfl rfl rfl rfl).2 rfl

/-- Claim C3: with `withStatusField=false` the object handed to the
serializer has no top-level `status` key, for every input record shape;
with `withManagedFields=false` the managed-fields metadata is removed. -/
theorem c3_field_stripping :
    ∀ (rf : config.ResourceFilter) (obj : UnstructuredObj),
      (rf.withStatusField = false → "status" ∉ topLevelKeys (strippedItem rf obj))
      ∧ (rf.withManagedFields = false → getManagedFields (strippedItem rf obj) = none) := by
  intro rf obj
  constructor
  · intro hst
    simp only [strippedItem, hst, Bool.not_false, if_true, topLevelKeys]
    exact not_mem_keys_deleteKey _
  · intro hmf
    cases hsf : rf.withStatusField with
    | false =>
      simp only [strippedItem, hmf, hsf, Bool.not_false, if_true]
      rw [getManagedFields_deleteKey_status, getManagedFields_setManagedFieldsNil]
    | true =>
      simp only [strippedItem, hmf, hsf, Bool.not_false, Bool.not_true, if_true,
        Bool.false_eq_true, if_false]
      exact getManagedFields_setManagedFieldsNil obj

/-- Witness for C3 on a record that carries both a status subtree and
managed fields. -/
theorem c3_field_stripping_witness :
    ("status" ∉ topLevelKeys (strippedItem ⟨"Pod", "v1", false, false⟩
        [("status", JValue.obj []),
         ("metadata", JValue.obj [("managedFields", JValue.arr []),
                                  ("name", JValue.str "x")])]))
    ∧ getManagedFields (strippedItem ⟨"Pod", "v1", false, false⟩
        [("status", JValue.obj []),
         ("metadata", JValue.obj [("managedFields", JValue.arr []),
                                  ("name", JValue.str "x")])]) = none :=
  ⟨(c3_field_stripping ⟨"Pod", "v1", false, false⟩
      [("status", JValue.obj []),
       ("metadata", JValue.obj [("managedFields", JValue.arr []),
                                ("name", JValue.str "x")])]).1 rfl,
   (c3_field_stripping ⟨"Pod", "v1", false, false⟩
      [("status", JValue.obj []),
       ("metadata", JValue.obj [("managedFields", JValue.arr []),
                                ("name", JValue.str "x")])]).2 rfl⟩

/-- Counterexample for C4: the claim asserts that every two distinct
(namespace, kind, name) triples generate different paths, but a
cluster-scoped record and a record in a namespace literally named
`cluster` (same kind and name, distinct namespaces) collide. -/
theorem c4_counterexample_placeholder_collision :
    controllers.generateFilePath "f"
        [("kind", JValue.str "Pod"), ("metadata", JValue.obj [("name", JValue.str "x")])] =
      controllers.generateFilePath "f"
        [("kind", JValue.str "Pod"),
         ("metadata", JValue.obj [("name", JValue.str "x"),
                                  ("namespace", JValue.str "cluster")])]
    ∧ getNamespace
        [("kind", JValue.str "Pod"), ("metadata", JValue.obj [("name", JValue.str "x")])] ≠
      getNamespace
        [("kind", JValue.str "Pod"),
         ("metadata", JValue.obj [("name", JValue.str "x"),
                                  ("namespace", JValue.str "cluster")])] := by
  exact ⟨rfl, by decide⟩

/-- Claim C4 as amended: `generateFilePath` is a pure function of the
extracted triple with the stated `{placeholder}/{kind}/{name}.yaml`
shape, and it is injective on triples whose components contain no slash
and whose namespace is not the placeholder literal `cluster`. -/
theorem c4_path_deterministic_injective_amended :
    (∀ (fs : String) (item : UnstructuredObj),
      controllers.generateFilePath fs item =
        controllers.pathTriple (getNamespace item) (getKind item) (getName item))
    ∧ (∀ ns1 k1 n1 ns2 k2 n2 : String,
        noSlash ns1 → noSlash k1 → noSlash n1 → noSlash ns2 → noSlash k2 → noSlash n2 →
        ns1 ≠ "cluster" → ns2 ≠ "cluster" →
        controllers.pathTriple ns1 k1 n1 = controllers.pathTriple ns2 k2 n2 →
        ns1 = ns2 ∧ k1 = k2 ∧ n1 = n2) := by
  constructor
  · intro fs item
    rfl
  · intro ns1 k1 n1 ns2 k2 n2 hn1 hk1 hm1 hn2 hk2 hm2 hc1 hc2 h
    have hp1 : noSlash (controllers.nsPlaceholder ns1) := noSlash_nsPlaceholder hn1
    have hp2 : noSlash (controllers.nsPlaceholder ns2) := noSlash_nsPlaceholder hn2
    unfold controllers.pathTriple at h
    have hd := congrArg String.data h
    simp only [String.data_append] at hd
    simp only [List.append_assoc, List.cons_append, List.nil_append] at hd
    obtain ⟨h1, hrest⟩ :=
      append_slash_inj (controllers.nsPlaceholder ns1).data (controllers.nsPlaceholder ns2).data
        _ _ hp1 hp2 hd
    obtain ⟨h2, hrest2⟩ := append_slash_inj k1.data k2.data _ _ hk1 hk2 hrest
    have h3 := List.append_cancel_right hrest2
    exact ⟨nsPlaceholder_inj hc1 hc2 (String.ext h1), String.ext h2, String.ext h3⟩

/-- Witness for the amended C4 at a concrete slash-free triple. -/
theorem c4_path_amended_witness :
    noSlash "default" ∧ ("default" = "default" ∧ "Pod" = "Pod" ∧ "web" = "web") :=
  ⟨by decide,
   c4_path_deterministic_injective_amended.2 "default" "Pod" "web" "default" "Pod" "web"
     (by decide) (by decide) (by decide) (by decide) (by decide) (by decide)
     (by decide) (by decide) rfl⟩

/-- Claim C5: a filter with wildcard or empty kind, or wildcard
apiVersion, is rejected as a configuration error before any discovery
lookup is made (the consulted-GVK list stays empty) and is never
reported as a discovery failure. -/
theorem c5_wildcard_rejected_before_discovery :
    ∀ (env : SyncEnv) (cfg : config.Config) (rf : config.ResourceFilter),
      (rf.name = "*" ∨ rf.name = "" →
        controllers.processFilter env cfg rf = (.configSkipName, []))
      ∧ (rf.apiVersion = "*" → rf.name ≠ "*" → rf.name ≠ "" →
          controllers.processFilter env cfg rf = (.configSkipAPIVersion, []))
      ∧ (∀ e gvks, rf.name = "*" ∨ rf.name = "" ∨ rf.apiVersion = "*" →
          controllers.processFilter env cfg rf ≠ (.discoverySkip e, gvks)) := by
  intro env cfg rf
  have h1 : rf.name = "*" ∨ rf.name = "" →
      controllers.processFilter env cfg rf = (.configSkipName, []) := by
    intro h
    unfold controllers.processFilter
    rw [if_pos h]
  have h2 : rf.apiVersion = "*" → rf.name ≠ "*" → rf.name ≠ "" →
      controllers.processFilter env cfg rf = (.configSkipAPIVersion, []) := by
    intro ha hm1 hm2
    unfold controllers.processFilter
    rw [if_neg (not_or.mpr ⟨hm1, hm2⟩), if_pos ha]
  refine ⟨h1, h2, ?_⟩
  intro e gvks h hcontra
  by_cases hn : rf.name = "*" ∨ rf.name = ""
  · rw [h1 hn] at hcontra
    simp at hcontra
  · obtain ⟨hm1, hm2⟩ := not_or.mp hn
    rcases h with h | h | h
    · exact hm1 h
    · exact hm2 h
    · rw [h2 h hm1 hm2] at hcontra
      simp at hcontra

/-- Witness for C5: a wildcard-named filter is skipped with no
discovery lookup. -/
theorem c5_wildcard_rejected_witness :
    controllers.processFilter
        ⟨fun _ => .error "d", fun _ _ => .ok [], .ok [], fun _ => .ok "", fun _ => .ok "",
         fun _ _ => .ok (), .ok ()⟩
        ⟨"c", "ns", [], [], ⟨"all", [], [], [], "yaml", [], "g", "", "f"⟩⟩
        ⟨"*", "v1", false, false⟩ = (.configSkipName, []) :=
  (c5_wildcard_rejected_before_discovery
      ⟨fun _ => .error "d", fun _ _ => .ok [], .ok [], fun _ => .ok "", fun _ => .ok "",
       fun _ _ => .ok (), .ok ()⟩
      ⟨"c", "ns", [], [], ⟨"all", [], [], [], "yaml", [], "g", "", "f"⟩⟩
      ⟨"*", "v1", false, false⟩).1 (Or.inl rfl)

/-- Claim C6: namespace resolution returns every live namespace name
for the `*` and `all` selectors, the single empty-string sentinel for
the empty selector, the literal itself otherwise; and once a filter is
mapped, exactly one namespace-scoped list call is issued per resolved
namespace. -/
theorem c6_namespace_resolution :
    (∀ (sel : String) (items : List UnstructuredObj), sel = "*" ∨ sel = "all" →
      controllers0.determineNamespaces sel (.ok items) = .ok (items.map getName))
    ∧ (∀ r, controllers0.determineNamespaces "" r = .ok [""])
    ∧ (∀ (sel : String) r, sel ≠ "*" → sel ≠ "all" → sel ≠ "" →
        controllers0.determineNamespaces sel r = .ok [sel])
    ∧ (∀ (env : SyncEnv) (cfg : config.Config) (namespaces : List String)
        (rf : config.ResourceFilter) (m : RESTMapping),
        env.restMapping (gvkOfFilter rf) = .ok m →
        controllers0.nsListCalls (controllers0.processFilter env cfg namespaces rf) =
          namespaces.length) := by
  refine ⟨?_, ?_, ?_, ?_⟩
  · intro sel items h
    unfold controllers0.determineNamespaces
    rw [if_pos h]
  · intro r
    rfl
  · intro sel r h1 h2 h3
    unfold controllers0.determineNamespaces
    rw [if_neg (not_or.mpr ⟨h1, h2⟩), if_pos h3]
  · intro env cfg namespaces rf m hm
    simp only [controllers0.processFilter]
    rw [hm]
    simp [controllers0.nsListCalls]

/-- Witness for C6: the `all` selector against a cluster reporting two
namespaces resolves to both names and issues exactly two list calls. -/
theorem c6_namespace_resolution_witness :
    controllers0.determineNamespaces "all"
        (.ok [[("metadata", JValue.obj [("name", JValue.str "default")])],
              [("metadata", JValue.obj [("name", JValue.str "kube-system")])]]) =
      .ok ["default", "kube-system"]
    ∧ controllers0.nsListCalls
        (controllers0.processFilter
          ⟨fun _ => .ok ⟨⟨"", "v1", "pods"⟩⟩, fun _ _ => .ok [], .ok [], fun _ => .ok "",
           fun _ => .ok "", fun _ _ => .ok (), .ok ()⟩
          ⟨"c", "ns", [], [], ⟨"all", [], [], [], "yaml", [], "g", "", "f"⟩⟩
          ["default", "kube-system"] ⟨"Pod", "v1", false, false⟩) = 2 := by
  constructor
  · have := c6_namespace_resolution.1 "all"
      [[("metadata", JValue.obj [("name", JValue.str "default")])],
       [("metadata", JValue.obj [("name", JValue.str "kube-system")])]] (Or.inr rfl)
    simpa using this
  · exact c6_namespace_resolution.2.2.2
      ⟨fun _ => .ok ⟨⟨"", "v1", "pods"⟩⟩, fun _ _ => .ok [], .ok [], fun _ => .ok "",
       fun _ => .ok "", fun _ _ => .ok (), .ok ()⟩
      ⟨"c", "ns", [], [], ⟨"all", [], [], [], "yaml", [], "g", "", "f"⟩⟩
      ["default", "kube-system"] ⟨"Pod", "v1", false, false⟩ ⟨⟨"", "v1", "pods"⟩⟩ rfl

/-- Claim C7: within one pass, errors are per stage and never abort the
cycle — a discovery failure skips only its filter, a list failure only
its (mapping, namespace) combination, a marshal failure only its
record; the remaining filters, namespaces and records are processed via
the structural maps, and with namespaces resolved and the commit
succeeding, `sync` returns the full outcome (no abort from fetch-stage
errors); the filter loop yields one result per filter. -/
theorem c7_per_stage_error_isolation :
    ∀ (env : SyncEnv) (cfg : config.Config) (namespaces : List String)
      (rf : config.ResourceFilter),
      (∀ e, env.restMapping (gvkOfFilter rf) = .error e →
        controllers0.processFilter env cfg namespaces rf = .mappingSkip e)
      ∧ (∀ m, env.restMapping (gvkOfFilter rf) = .ok m →
          controllers0.processFilter env cfg namespaces rf =
            .mapped (namespaces.map (controllers0.processNamespace env cfg rf m)))
      ∧ (∀ m ns e, env.listResources m.resource ns = .error e →
          controllers0.processNamespace env cfg rf m ns = .listSkip e)
      ∧ (∀ m ns items, env.listResources m.resource ns = .ok items →
          controllers0.processNamespace env cfg rf m ns =
            .listed (items.map (controllers0.processItem env cfg rf)))
      ∧ (∀ item e, marshalOf env cfg (strippedItem rf item) = .error e →
          controllers0.processItem env cfg rf item = .marshalSkip e)
      ∧ (∀ nss, controllers0.determineNamespaces cfg.«namespace» env.listNamespaces = .ok nss →
          env.commitAndPush = .ok () →
          controllers0.sync env cfg rf = .ok (controllers0.processFilter env cfg nss rf))
      ∧ (controllers0.syncFilters env cfg).length = cfg.spec.includeResource.length := by
  intro env cfg namespaces rf
  refine ⟨?_, ?_, ?_, ?_, ?_, ?_, ?_⟩
  · intro e he
    simp only [controllers0.processFilter]
    rw [he]
  · intro m hm
    simp only [controllers0.processFilter]
    rw [hm]
  · intro m ns e he
    simp only [controllers0.processNamespace]
    rw [he]
  · intro m ns items hl
    simp only [controllers0.processNamespace]
    rw [hl]
  · intro item e he
    simp only [controllers0.processItem, matchFilters, Bool.not_true, Bool.false_eq_true,
      if_false]
    rw [he]
  · intro nss hns hcp
    simp only [controllers0.sync]
    rw [hns, hcp]
  · simp [controllers0.syncFilters]

/-- Witness for C7: a failing discovery oracle yields a mapping skip
for that filter. -/
theorem c7_per_stage_error_isolation_witness :
    controllers0.processFilter
        ⟨fun _ => .error "boom", fun _ _ => .ok [], .ok [], fun _ => .ok "", fun _ => .ok "",
         fun _ _ => .ok (), .ok ()⟩
        ⟨"c", "ns", [], [], ⟨"all", [], [], [], "yaml", [], "g", "", "f"⟩⟩
        [""] ⟨"Pod", "v1", false, false⟩ = .mappingSkip "boom" :=
  (c7_per_stage_error_isolation
      ⟨fun _ => .error "boom", fun _ _ => .ok [], .ok [], fun _ => .ok "", fun _ => .ok "",
       fun _ _ => .ok (), .ok ()⟩
      ⟨"c", "ns", [], [], ⟨"all", [], [], [], "yaml", [], "g", "", "f"⟩⟩
      [""] ⟨"Pod", "v1", false, false⟩).1 "boom" rfl

/-- Counterexample for C9: the claim requires a record that misses a
configured label key to be rejected, but `matchFilters` accepts the
empty record even though the label `app` is configured and absent. -/
theorem c9_counterexample_stub_accepts :
    matchFilters [] [("app", "nginx")] [] = true
    ∧ lookupStr "app" (getLabels []) = none :=
  ⟨rfl, rfl⟩

/-- Claim C9 as amended: the label/annotation match filter is an
unimplemented stub — it accepts every record for every configured label
and annotation map, so in particular a record missing a configured
label key still passes. -/
theorem c9_match_filter_stub_accepts_all :
    ∀ (item : UnstructuredObj) (labels annotations : List (String × String)),
      matchFilters item labels annotations = true :=
  fun _ _ _ => rfl
